import Mathlib

/-!
# Verification of the kvraft test-harness `Config` (src/kvraft/config.rs)

A shallow embedding of the cluster simulation & fault-injection controller.
Pure data and state-passing replace the Rust struct's interior mutability:

* Endpoint and session names: the source builds names as decimal strings —
  `String::new()` yields the empty string placeholder, and `uniqstring()`
  formats a process-global atomic counter.  The decimal rendering of distinct
  counter values yields distinct strings, and the network compares names only
  for equality, so a name is modelled by the counter value that produced it
  (`EndName.id k`) with a separate constructor `EndName.blank` for the
  `String::new()` placeholder.  Server ids (`format!("{}", i)` on a peer
  index) live in the network's separate server namespace and are modelled by
  the index itself.
* Persisters: `Arc<SimplePersister>` allocation is modelled by a heap — the
  list of every persister ever allocated, a persister id (`pid`) being an
  index into that list.  `Arc` aliasing becomes sharing of the `pid`; a
  superseded server instance writing through its retained `Arc` is
  `Config.heapSave` at that instance's `pid`.
* Vector indexing `v[i]` is total here (`getD` / `set`); the Rust indexing
  panics only for out-of-range peer indices, which every theorem excludes via
  `i < n` hypotheses.  The two places where the source's panic/no-panic
  behaviour is itself the property under scrutiny — `disconnect`'s empty-row
  guard and the clerk-map lookups — are modelled faithfully in `Option`,
  where `none` marks a Rust panic.
* Wall-clock instants are milliseconds (`Nat`); `Instant::elapsed` at time
  `now` is `now - start`.
-/

namespace KvraftConfig

/-- A simulated network endpoint or session name.  `blank` is the
`String::new()` placeholder filling `endnames` at construction; `id k` is the
name produced by the `k`-th call of `uniqstring()`. -/
inductive EndName where
  | blank : EndName
  | id : Nat → EndName
deriving DecidableEq, Repr

/-- The durable bytes held by one `SimplePersister`: the raft state and the
snapshot (byte lists). -/
structure PersistData where
  raftState : List Nat
  snapshot : List Nat
deriving DecidableEq, Repr

instance : Inhabited PersistData := ⟨⟨[], []⟩⟩

/-- One live KV server instance (`server::Node`): the pid of the persister it
was handed at construction, and the opaque Consensus Node's leadership
report (`is_leader()`). -/
structure ServerInst where
  pid : Nat
  isLeader : Bool
deriving DecidableEq, Repr

/-- The opaque `labrpc::Network`, restricted to the state the harness
manipulates: per-endpoint-name enable flags, the registered server ids, the
end-to-server connections, the created client ends, the global sent-RPC
counter and the reliability flag. -/
structure Network where
  enabled : EndName → Bool
  servers : List Nat
  connections : List (EndName × Nat)
  clientEnds : List EndName
  totalCount : Nat
  reliable : Bool

/-- One `net.enable(name, flag)` call, as a pointwise update of the flag
function. -/
def applyCall (f : EndName → Bool) (c : EndName × Bool) : EndName → Bool :=
  fun x => if x = c.1 then c.2 else f x

/-- A sequence of `net.enable` calls, applied left to right (later calls
override earlier ones). -/
def applyCalls (f : EndName → Bool) (cs : List (EndName × Bool)) : EndName → Bool :=
  cs.foldl applyCall f

/-- Apply a sequence of `net.enable` calls to the network. -/
def Network.applyCalls (net : Network) (cs : List (EndName × Bool)) : Network :=
  { net with enabled := KvraftConfig.applyCalls net.enabled cs }

/-- Rust `net.delete_server(sid)`. -/
def Network.deleteServer (net : Network) (sid : Nat) : Network :=
  { net with servers := net.servers.erase sid }

/-- Rust `net.add_server(srv)` for the server built under id `sid`. -/
def Network.addServer (net : Network) (sid : Nat) : Network :=
  { net with servers := net.servers ++ [sid] }

/-- Rust `net.create_client(name)`. -/
def Network.createClient (net : Network) (name : EndName) : Network :=
  { net with clientEnds := net.clientEnds ++ [name] }

/-- Rust `net.connect(name, sid)`: route the client end `name` to server `sid`. -/
def Network.connectEnd (net : Network) (name : EndName) (sid : Nat) : Network :=
  { net with connections := net.connections ++ [(name, sid)] }

/-- Rust `net.set_reliable(b)`. -/
def Network.setReliable (net : Network) (b : Bool) : Network :=
  { net with reliable := b }

/-- Modelled from the spec: the `kvraft::errors::Error` enum is not under
`src/`; the spec names the non-fatal `NoLeader`/`NotFound` variant returned by
`leader()`, which is all the harness uses. -/
inductive Error where
  | noLeader : Error
deriving DecidableEq, Repr

/-- The harness state (`struct Config`).  The process-global `uniqstring`
counter (`static ID`) is threaded through the state as `nextId`, and the two
`Instant` fields are milliseconds. -/
structure Config where
  net : Network
  n : Nat
  kvservers : List (Option ServerInst)
  /-- every persister ever allocated; a pid is an index into this list -/
  heap : List PersistData
  /-- pid of the persister the Config currently holds for each peer -/
  saved : List Nat
  endnames : List (List EndName)
  clerks : List (EndName × List EndName)
  nextClientId : Nat
  maxraftstate : Nat
  /-- time at which `make_config()` was called (ms) -/
  start : Nat
  /-- time at which the test called `cfg.begin()` (ms) -/
  t0 : Nat
  rpcs0 : Nat
  ops : Nat
  /-- the global `uniqstring` counter -/
  nextId : Nat

/-- The name produced by the `k`-th `uniqstring()` call. -/
def uniqName (k : Nat) : EndName := EndName.id k

/-- Rust `endnames[i][j]`, read totally. -/
def endNameAt (en : List (List EndName)) (i j : Nat) : EndName :=
  (en.getD i []).getD j EndName.blank

/-! ## `connect` / `disconnect` as `enable` call sequences

The calls each loop issues are computed against the (unchanged) `endnames`
matrix.  `none` marks a Rust indexing panic.  `disconnect` guards each
iteration on `!self.endnames[row].is_empty()` — note the guard itself indexes
the outer vector, so an out-of-range row is still a panic. -/

/-- Rust `connect`'s first loop: `for j in to { enable(endnames[i][j], true) }`. -/
def connectOutCalls (en : List (List EndName)) (i : Nat) :
    List Nat → Option (List (EndName × Bool))
  | [] => some []
  | j :: js => do
    let row ← en[i]?
    let name ← row[j]?
    let rest ← connectOutCalls en i js
    pure ((name, true) :: rest)

/-- Rust `connect`'s second loop: `for j in to { enable(endnames[j][i], true) }`. -/
def connectInCalls (en : List (List EndName)) (i : Nat) :
    List Nat → Option (List (EndName × Bool))
  | [] => some []
  | j :: js => do
    let row ← en[j]?
    let name ← row[i]?
    let rest ← connectInCalls en i js
    pure ((name, true) :: rest)

/-- All `enable` calls issued by `Config::connect(i, to)`. -/
def connectCalls (en : List (List EndName)) (i : Nat) (to_ : List Nat) :
    Option (List (EndName × Bool)) := do
  pure ((← connectOutCalls en i to_) ++ (← connectInCalls en i to_))

/-- Rust `disconnect`'s first loop:
`for j in from { if !endnames[i].is_empty() { enable(endnames[i][j], false) } }`. -/
def disconnectOutCalls (en : List (List EndName)) (i : Nat) :
    List Nat → Option (List (EndName × Bool))
  | [] => some []
  | j :: js => do
    let row ← en[i]?
    if row.isEmpty then
      disconnectOutCalls en i js
    else do
      let name ← row[j]?
      let rest ← disconnectOutCalls en i js
      pure ((name, false) :: rest)

/-- Rust `disconnect`'s second loop:
`for j in from { if !endnames[j].is_empty() { enable(endnames[j][i], false) } }`. -/
def disconnectInCalls (en : List (List EndName)) (i : Nat) :
    List Nat → Option (List (EndName × Bool))
  | [] => some []
  | j :: js => do
    let row ← en[j]?
    if row.isEmpty then
      disconnectInCalls en i js
    else do
      let name ← row[i]?
      let rest ← disconnectInCalls en i js
      pure ((name, false) :: rest)

/-- All `enable` calls issued by `Config::disconnect(i, from)`. -/
def disconnectCalls (en : List (List EndName)) (i : Nat) (from_ : List Nat) :
    Option (List (EndName × Bool)) := do
  pure ((← disconnectOutCalls en i from_) ++ (← disconnectInCalls en i from_))

/-- Rust `Config::connect(i, to)` (state effect). -/
def Config.connect (cfg : Config) (i : Nat) (to_ : List Nat) : Config :=
  { cfg with net := cfg.net.applyCalls ((connectCalls cfg.endnames i to_).getD []) }

/-- Rust `Config::disconnect(i, from)` (state effect). -/
def Config.disconnect (cfg : Config) (i : Nat) (from_ : List Nat) : Config :=
  { cfg with net := cfg.net.applyCalls ((disconnectCalls cfg.endnames i from_).getD []) }

/-- Rust `Config::all()`. -/
def Config.all (cfg : Config) : List Nat := List.range cfg.n

/-- Rust `Config::connect_all()`. -/
def Config.connectAll (cfg : Config) : Config :=
  (List.range cfg.n).foldl (fun c i => c.connect i c.all) cfg

/-- The partition loop body over one group `g` (with `other` the opposite
group): `for i in g { disconnect(i, other); connect(i, g) }`, where `whole`
stays the full group `g` while the recursion walks it. -/
def groupCallsAux (en : List (List EndName)) (other whole : List Nat) :
    List Nat → Option (List (EndName × Bool))
  | [] => some []
  | i :: g => do
    let d ← disconnectCalls en i other
    let c ← connectCalls en i whole
    let rest ← groupCallsAux en other whole g
    pure (d ++ c ++ rest)

/-- All `enable` calls issued by `Config::partition(p1, p2)` — both loops, in
program order.  `endnames` never changes while the loops run (the loops touch
only the network's flags), so computing every call against the entry state is
exact. -/
def partitionCalls (en : List (List EndName)) (p1 p2 : List Nat) :
    Option (List (EndName × Bool)) := do
  pure ((← groupCallsAux en p2 p1 p1) ++ (← groupCallsAux en p1 p2 p2))

/-- Rust `Config::partition(p1, p2)` (state effect). -/
def Config.partition (cfg : Config) (p1 p2 : List Nat) : Config :=
  { cfg with net := cfg.net.applyCalls ((partitionCalls cfg.endnames p1 p2).getD []) }

/-! ## Persistence continuity -/

/-- The persister-rollover step shared verbatim by `shutdown_server` and
`start_server`:
`let p = SimplePersister::new();
 p.save_state_and_snapshot(self.saved[i].raft_state(), self.saved[i].snapshot());
 self.saved[i] = Arc::new(p);`
The fresh persister gets the next unused pid (`heap.length`). -/
def Config.rollPersister (cfg : Config) (i : Nat) : Config :=
  let old := cfg.heap.getD (cfg.saved.getD i 0) default
  { cfg with
      heap := cfg.heap ++ [{ raftState := old.raftState, snapshot := old.snapshot }],
      saved := cfg.saved.set i cfg.heap.length }

/-- Rust `save_state_and_snapshot` on the persister with id `pid` — in particular a
write issued through the `Arc` still held by a (possibly superseded) server
instance. -/
def Config.heapSave (cfg : Config) (pid : Nat) (rs snap : List Nat) : Config :=
  { cfg with heap := cfg.heap.set pid { raftState := rs, snapshot := snap } }

/-- The persisted bytes the Config currently holds for peer `i`
(`self.saved[i]`'s content). -/
def Config.persistAt (cfg : Config) (i : Nat) : PersistData :=
  cfg.heap.getD (cfg.saved.getD i 0) default

/-! ## Server lifecycle -/

/-- An observable step of `shutdown_server`, for stating the order of its
effects. -/
inductive Ev where
  | enable : EndName → Bool → Ev
  | deleteServer : Nat → Ev
  | rollPersist : Nat → Ev
  | kill : Nat → Ev
deriving DecidableEq, Repr

/-- Rust `Config::shutdown_server(i)` with its trace of observable steps, in
program order: `disconnect(i, all)`, `net.delete_server(i)`, the persister
rollover, then `kill()` on the taken server node (no kill step when the slot
is already empty). -/
def Config.shutdownServerT (cfg : Config) (i : Nat) : Config × List Ev :=
  -- self.disconnect(i, &self.all());
  let calls := (disconnectCalls cfg.endnames i (List.range cfg.n)).getD []
  let cfg1 : Config := { cfg with net := cfg.net.applyCalls calls }
  -- self.net.delete_server(&format!("{}", i));
  let cfg2 : Config := { cfg1 with net := cfg1.net.deleteServer i }
  -- fresh persister seeded with the old one's content
  let cfg3 := cfg2.rollPersister i
  -- if let Some(kv) = self.kvservers[i].take() { kv.kill(); }
  let killEvs := match cfg3.kvservers.getD i none with
    | some _ => [Ev.kill i]
    | none => []
  let cfg4 : Config := { cfg3 with kvservers := cfg3.kvservers.set i none }
  (cfg4, calls.map (fun c => Ev.enable c.1 c.2) ++ [Ev.deleteServer i, Ev.rollPersist i] ++ killEvs)

/-- Rust `Config::shutdown_server(i)` (state effect). -/
def Config.shutdownServer (cfg : Config) (i : Nat) : Config :=
  (cfg.shutdownServerT i).1

/-- Rust `Config::start_server(i)`: a fresh row of `n` endpoint names from
`uniqstring()`, a client end per name routed to its peer, the persister
rollover, a new server instance handed the fresh persister, and registration
of server id `i` with the network.  Leadership belongs to the opaque
Consensus Node; a freshly constructed node does not report leader. -/
def Config.startServer (cfg : Config) (i : Nat) : Config :=
  -- self.endnames[i] = (0..self.n).map(|_| uniqstring()).collect();
  let names := (List.range cfg.n).map (fun k => uniqName (cfg.nextId + k))
  let cfg1 : Config := { cfg with
    endnames := cfg.endnames.set i names,
    nextId := cfg.nextId + cfg.n }
  -- for (j, name): create_client(name); net.connect(name, j)
  let net1 := (names.zip (List.range cfg.n)).foldl
    (fun nt p => (nt.createClient p.1).connectEnd p.1 p.2) cfg1.net
  let cfg2 : Config := { cfg1 with net := net1 }
  -- fresh persister seeded with the old content; its pid is handed to the server
  let newPid := cfg2.heap.length
  let cfg3 := cfg2.rollPersister i
  -- KvServer::new(ends, i, Box::new(p), maxraftstate); kvservers[i] = Some(node)
  let cfg4 : Config := { cfg3 with
    kvservers := cfg3.kvservers.set i (some { pid := newPid, isLeader := false }) }
  -- builder Server under id i; net.add_server(srv)
  { cfg4 with net := cfg4.net.addServer i }

/-! ## Leader discovery and the adversarial partition -/

/-- The scan inside `Config::leader()`: first live slot reporting leader, in
index order, counting from offset `k`. -/
def leaderScan : List (Option ServerInst) → Nat → Except Error Nat
  | [], _ => Except.error Error.noLeader
  | none :: rest, k => leaderScan rest (k + 1)
  | some kv :: rest, k => if kv.isLeader then Except.ok k else leaderScan rest (k + 1)

/-- Rust `Config::leader()`. -/
def Config.leader (cfg : Config) : Except Error Nat :=
  leaderScan cfg.kvservers 0

/-- The loop of `Config::make_partition()` for peer count `n` and leader
index `l` (the source's `self.leader().unwrap_or(0)`):
`for i in 0..n { if i != l { if p1.len() + 1 < n/2 + 1 { p1.push(i) } else
{ p2.push(i) } } } ; p2.push(l)`. -/
def makePartitionFrom (n l : Nat) : List Nat × List Nat :=
  let p := (List.range n).foldl
    (fun (acc : List Nat × List Nat) i =>
      if i ≠ l then
        if acc.1.length + 1 < n / 2 + 1 then (acc.1 ++ [i], acc.2)
        else (acc.1, acc.2 ++ [i])
      else acc)
    ([], [])
  (p.1, p.2 ++ [l])

/-- Rust `Config::make_partition()`. -/
def Config.makePartition (cfg : Config) : List Nat × List Nat :=
  makePartitionFrom cfg.n
    (match cfg.leader with
      | Except.ok l => l
      | Except.error _ => 0)

/-! ## Sessions (clerks) -/

/-- Rust `self.clerks[&name]` — the `HashMap` lookup; `none` is the Rust
index-panic on a missing key. -/
def clerkLookup (clerks : List (EndName × List EndName)) (name : EndName) :
    Option (List EndName) :=
  match clerks.find? (fun p => p.1 == name) with
  | some p => some p.2
  | none => none

/-- Rust `Config::delete_client(ck)`: `self.clerks.remove(&ck.name)`.  The clerks
map is an association list with (counter-)unique keys; removal drops the
key's entry. -/
def Config.deleteClient (cfg : Config) (ckName : EndName) : Config :=
  { cfg with clerks := cfg.clerks.filter (fun p => p.1 != ckName) }

/-- The loop of `connect_client`/`disconnect_client`:
`for j in set { enable(endnames[j], v) }`; `none` marks the Rust panic of
`endnames[*j]` out of range. -/
def clientCalls (ens : List EndName) (v : Bool) :
    List Nat → Option (List (EndName × Bool))
  | [] => some []
  | j :: js => do
    let s ← ens[j]?
    let rest ← clientCalls ens v js
    pure ((s, v) :: rest)

/-- Rust `Config::connect_client(ck, to)`; `none` marks a Rust panic (missing
clerk entry, or an out-of-range server index). -/
def Config.connectClient (cfg : Config) (ckName : EndName) (to_ : List Nat) :
    Option Config := do
  let ens ← clerkLookup cfg.clerks ckName
  let calls ← clientCalls ens true to_
  pure { cfg with net := cfg.net.applyCalls calls }

/-- Rust `Config::disconnect_client(ck, from)`; `none` marks a Rust panic. -/
def Config.disconnectClient (cfg : Config) (ckName : EndName) (from_ : List Nat) :
    Option Config := do
  let ens ← clerkLookup cfg.clerks ckName
  let calls ← clientCalls ens false from_
  pure { cfg with net := cfg.net.applyCalls calls }

/-! ## Metrics, timing, sizes -/

/-- Rust `Config::check_timeout()` at wall-clock `now` (ms): whether the
`panic!("test took longer than 120 seconds")` fires, i.e.
`self.start.elapsed() > Duration::from_secs(120)`. -/
def Config.checkTimeoutPanics (cfg : Config) (now : Nat) : Bool :=
  decide (120000 < now - cfg.start)

/-- Rust `Config::begin(description)` at wall-clock `now`: resets `t0`, the RPC
baseline and the op counter; `start` is untouched. -/
def Config.beginTest (cfg : Config) (now : Nat) : Config :=
  { cfg with t0 := now, rpcs0 := cfg.net.totalCount, ops := 0 }

/-- What `Config::end()` reports. -/
structure EndReport where
  panicked : Bool
  elapsedMs : Nat
  npeers : Nat
  nrpc : Nat
  nops : Nat
deriving DecidableEq, Repr

/-- Rust `Config::end()` at wall-clock `now`: first the timeout assertion against
`start`, then the phase statistics against `t0` and the baselines. -/
def Config.endTest (cfg : Config) (now : Nat) : EndReport :=
  { panicked := cfg.checkTimeoutPanics now
    elapsedMs := now - cfg.t0
    npeers := cfg.n
    nrpc := cfg.net.totalCount - cfg.rpcs0
    nops := cfg.ops }

/-- Rust `Drop for Config` at wall-clock `now`: kill every live slot (external
effect), then `check_timeout()` — unconditionally, whether or not `end()` was
ever called.  Returns whether the budget panic fires. -/
def Config.dropTeardown (cfg : Config) (now : Nat) : Bool :=
  cfg.checkTimeoutPanics now

/-- Rust `Config::log_size()`: maximum raft-state length over `saved`. -/
def Config.logSize (cfg : Config) : Nat :=
  cfg.saved.foldl
    (fun m pid =>
      let k := (cfg.heap.getD pid default).raftState.length
      if m < k then k else m) 0

/-- Rust `Config::snapshot_size()`: maximum snapshot length over `saved`. -/
def Config.snapshotSize (cfg : Config) : Nat :=
  cfg.saved.foldl
    (fun m pid =>
      let k := (cfg.heap.getD pid default).snapshot.length
      if m < k then k else m) 0

/-! ## Construction -/

/-- The `Config` literal built at the top of `Config::new` (before the
start/connect loops), at wall-clock `now`. -/
def Config.init (n : Nat) (maxraftstate : Nat) (now : Nat) : Config :=
  { net := { enabled := fun _ => false, servers := [], connections := [],
             clientEnds := [], totalCount := 0, reliable := true }
    n := n
    kvservers := List.replicate n none
    heap := List.replicate n default
    saved := List.range n
    endnames := List.replicate n (List.replicate n EndName.blank)
    clerks := []
    nextClientId := n + 1000
    maxraftstate := maxraftstate
    start := now
    t0 := now
    rpcs0 := 0
    ops := 0
    nextId := 0 }

/-- Rust `Config::new(n, unreliable, maxraftstate)` at wall-clock `now`:
the literal, then `start_server(i)` for each `i`, `connect_all()`, and
`set_reliable(!unreliable)`. -/
def Config.new (n : Nat) (unreliable : Bool) (maxraftstate : Nat) (now : Nat) :
    Config :=
  let cfg := Config.init n maxraftstate now
  let cfg := (List.range n).foldl (fun c i => c.startServer i) cfg
  let cfg := cfg.connectAll
  { cfg with net := cfg.net.setReliable (!unreliable) }

/-! ## Facts about `enable`-call sequences -/

theorem applyCalls_not_mentioned (cs : List (EndName × Bool)) :
    ∀ (f : EndName → Bool) (x : EndName),
      (∀ c ∈ cs, c.1 ≠ x) → applyCalls f cs x = f x := by
  induction cs with
  | nil => intro f x _; rfl
  | cons c cs ih =>
    intro f x h
    have hc : c.1 ≠ x := h c (List.mem_cons_self ..)
    have hrest := ih (applyCall f c) x (fun d hd => h d (List.mem_cons_of_mem _ hd))
    simp only [applyCalls, List.foldl_cons] at hrest ⊢
    rw [hrest, applyCall, if_neg (fun h' => hc h'.symm)]

theorem applyCalls_mentioned (cs : List (EndName × Bool)) :
    ∀ (f : EndName → Bool) (x : EndName) (v : Bool),
      (∃ c ∈ cs, c.1 = x) → (∀ c ∈ cs, c.1 = x → c.2 = v) →
      applyCalls f cs x = v := by
  induction cs with
  | nil => intro f x v hex _; rcases hex with ⟨c, hc, _⟩; cases hc
  | cons c cs ih =>
    intro f x v hex hall
    by_cases hm : ∃ d ∈ cs, d.1 = x
    · have := ih (applyCall f c) x v hm (fun d hd => hall d (List.mem_cons_of_mem _ hd))
      simpa only [applyCalls, List.foldl_cons] using this
    · have hc : c.1 = x := by
        rcases hex with ⟨d, hd, hdx⟩
        rcases List.mem_cons.1 hd with rfl | hdm
        · exact hdx
        · exact absurd ⟨d, hdm, hdx⟩ hm
      have hnone : ∀ d ∈ cs, d.1 ≠ x := fun d hd hdx => hm ⟨d, hd, hdx⟩
      have hskip := applyCalls_not_mentioned cs (applyCall f c) x hnone
      simp only [applyCalls, List.foldl_cons] at hskip ⊢
      rw [hskip]
      simp [applyCall, hc, hall c (List.mem_cons_self ..) hc]

/-! ## Characterizing the calls of `connect` / `disconnect` on a well-formed
matrix -/

section Calls

variable {en : List (List EndName)} {n : Nat}

theorem connectOutCalls_eq (hen : en.length = n) (hrow : ∀ r ∈ en, r.length = n)
    {i : Nat} (hi : i < n) :
    ∀ to_ : List Nat, (∀ j ∈ to_, j < n) →
      connectOutCalls en i to_ = some (to_.map fun j => (endNameAt en i j, true)) := by
  intro to_
  induction to_ with
  | nil => intro _; rfl
  | cons j js ih =>
    intro hto
    have hi' : i < en.length := hen ▸ hi
    have hrowi : en[i].length = n := hrow _ (List.getElem_mem hi')
    have hj : j < en[i].length := hrowi ▸ hto j (List.mem_cons_self ..)
    have h1 : en[i]? = some en[i] := List.getElem?_eq_getElem hi'
    have h2 : en[i][j]? = some en[i][j] := List.getElem?_eq_getElem hj
    have hname : endNameAt en i j = en[i][j] := by
      simp [endNameAt, List.getD_eq_getElem?_getD, h1, h2]
    rw [connectOutCalls, h1, ih (fun a ha => hto a (List.mem_cons_of_mem _ ha))]
    simp [h2, hname]

theorem connectInCalls_eq (hen : en.length = n) (hrow : ∀ r ∈ en, r.length = n)
    {i : Nat} (hi : i < n) :
    ∀ to_ : List Nat, (∀ j ∈ to_, j < n) →
      connectInCalls en i to_ = some (to_.map fun j => (endNameAt en j i, true)) := by
  intro to_
  induction to_ with
  | nil => intro _; rfl
  | cons j js ih =>
    intro hto
    have hj' : j < en.length := hen ▸ hto j (List.mem_cons_self ..)
    have hrowj : en[j].length = n := hrow _ (List.getElem_mem hj')
    have hi2 : i < en[j].length := hrowj ▸ hi
    have h1 : en[j]? = some en[j] := List.getElem?_eq_getElem hj'
    have h2 : en[j][i]? = some en[j][i] := List.getElem?_eq_getElem hi2
    have hname : endNameAt en j i = en[j][i] := by
      simp [endNameAt, List.getD_eq_getElem?_getD, h1, h2]
    rw [connectInCalls, h1, ih (fun a ha => hto a (List.mem_cons_of_mem _ ha))]
    simp [h2, hname]

theorem connectCalls_eq (hen : en.length = n) (hrow : ∀ r ∈ en, r.length = n)
    {i : Nat} (hi : i < n) (to_ : List Nat) (hto : ∀ j ∈ to_, j < n) :
    connectCalls en i to_ =
      some ((to_.map fun j => (endNameAt en i j, true)) ++
            (to_.map fun j => (endNameAt en j i, true))) := by
  rw [connectCalls, connectOutCalls_eq hen hrow hi to_ hto,
      connectInCalls_eq hen hrow hi to_ hto]
  rfl

theorem disconnectOutCalls_eq (hen : en.length = n) (hrow : ∀ r ∈ en, r.length = n)
    {i : Nat} (hi : i < n) :
    ∀ from_ : List Nat, (∀ j ∈ from_, j < n) →
      disconnectOutCalls en i from_ =
        some (from_.map fun j => (endNameAt en i j, false)) := by
  intro from_
  induction from_ with
  | nil => intro _; rfl
  | cons j js ih =>
    intro hfrom
    have hi' : i < en.length := hen ▸ hi
    have hrowi : en[i].length = n := hrow _ (List.getElem_mem hi')
    have hne : en[i] ≠ [] := by
      intro h
      rw [h] at hrowi
      simp at hrowi
      omega
    have hj : j < en[i].length := hrowi ▸ hfrom j (List.mem_cons_self ..)
    have h1 : en[i]? = some en[i] := List.getElem?_eq_getElem hi'
    have h2 : en[i][j]? = some en[i][j] := List.getElem?_eq_getElem hj
    have hname : endNameAt en i j = en[i][j] := by
      simp [endNameAt, List.getD_eq_getElem?_getD, h1, h2]
    rw [disconnectOutCalls, h1, ih (fun a ha => hfrom a (List.mem_cons_of_mem _ ha))]
    simp [hne, h2, hname]

theorem disconnectInCalls_eq (hen : en.length = n) (hrow : ∀ r ∈ en, r.length = n)
    {i : Nat} (hi : i < n) :
    ∀ from_ : List Nat, (∀ j ∈ from_, j < n) →
      disconnectInCalls en i from_ =
        some (from_.map fun j => (endNameAt en j i, false)) := by
  intro from_
  induction from_ with
  | nil => intro _; rfl
  | cons j js ih =>
    intro hfrom
    have hj' : j < en.length := hen ▸ hfrom j (List.mem_cons_self ..)
    have hrowj : en[j].length = n := hrow _ (List.getElem_mem hj')
    have hne : en[j] ≠ [] := by
      intro h
      rw [h] at hrowj
      simp at hrowj
      omega
    have hi2 : i < en[j].length := hrowj ▸ hi
    have h1 : en[j]? = some en[j] := List.getElem?_eq_getElem hj'
    have h2 : en[j][i]? = some en[j][i] := List.getElem?_eq_getElem hi2
    have hname : endNameAt en j i = en[j][i] := by
      simp [endNameAt, List.getD_eq_getElem?_getD, h1, h2]
    rw [disconnectInCalls, h1, ih (fun a ha => hfrom a (List.mem_cons_of_mem _ ha))]
    simp [hne, h2, hname]

theorem disconnectCalls_eq (hen : en.length = n) (hrow : ∀ r ∈ en, r.length = n)
    {i : Nat} (hi : i < n) (from_ : List Nat) (hfrom : ∀ j ∈ from_, j < n) :
    disconnectCalls en i from_ =
      some ((from_.map fun j => (endNameAt en i j, false)) ++
            (from_.map fun j => (endNameAt en j i, false))) := by
  rw [disconnectCalls, disconnectOutCalls_eq hen hrow hi from_ hfrom,
      disconnectInCalls_eq hen hrow hi from_ hfrom]
  rfl

/-- The full call list of one partition loop over group `g` (opposite group
`other`, the group itself passed as `whole`). -/
def groupCallList (en : List (List EndName)) (other whole g : List Nat) :
    List (EndName × Bool) :=
  g.flatMap fun i =>
    ((other.map fun j => (endNameAt en i j, false)) ++
     (other.map fun j => (endNameAt en j i, false))) ++
    ((whole.map fun j => (endNameAt en i j, true)) ++
     (whole.map fun j => (endNameAt en j i, true)))

theorem groupCallsAux_eq (hen : en.length = n) (hrow : ∀ r ∈ en, r.length = n)
    {other whole : List Nat} (hother : ∀ a ∈ other, a < n)
    (hwhole : ∀ a ∈ whole, a < n) :
    ∀ g : List Nat, (∀ a ∈ g, a < n) →
      groupCallsAux en other whole g = some (groupCallList en other whole g) := by
  intro g
  induction g with
  | nil => intro _; rfl
  | cons i g ih =>
    intro hg
    have hi : i < n := hg i (List.mem_cons_self ..)
    rw [groupCallsAux, disconnectCalls_eq hen hrow hi other hother,
        connectCalls_eq hen hrow hi whole hwhole,
        ih (fun a ha => hg a (List.mem_cons_of_mem _ ha))]
    simp [groupCallList]

theorem partitionCalls_eq (hen : en.length = n) (hrow : ∀ r ∈ en, r.length = n)
    {p1 p2 : List Nat} (hp1 : ∀ a ∈ p1, a < n) (hp2 : ∀ a ∈ p2, a < n) :
    partitionCalls en p1 p2 =
      some (groupCallList en p2 p1 p1 ++ groupCallList en p1 p2 p2) := by
  rw [partitionCalls, groupCallsAux_eq hen hrow hp2 hp1 p1 hp1,
      groupCallsAux_eq hen hrow hp1 hp2 p2 hp2]
  rfl

theorem groupCallList_shape {en : List (List EndName)} {other whole g : List Nat} :
    ∀ c ∈ groupCallList en other whole g,
      (∃ x y, x ∈ g ∧ y ∈ other ∧
        (c = (endNameAt en x y, false) ∨ c = (endNameAt en y x, false))) ∨
      (∃ x y, x ∈ g ∧ y ∈ whole ∧
        (c = (endNameAt en x y, true) ∨ c = (endNameAt en y x, true))) := by
  intro c hc
  simp only [groupCallList, List.mem_flatMap, List.mem_append, List.mem_map] at hc
  rcases hc with ⟨x, hx, hbody⟩
  rcases hbody with (⟨y, hy, rfl⟩ | ⟨y, hy, rfl⟩) | (⟨y, hy, rfl⟩ | ⟨y, hy, rfl⟩)
  · exact Or.inl ⟨x, y, hx, hy, Or.inl rfl⟩
  · exact Or.inl ⟨x, y, hx, hy, Or.inr rfl⟩
  · exact Or.inr ⟨x, y, hx, hy, Or.inl rfl⟩
  · exact Or.inr ⟨x, y, hx, hy, Or.inr rfl⟩

theorem mem_groupCallList_dis_out {en : List (List EndName)} {other whole g : List Nat}
    {a b : Nat} (ha : a ∈ g) (hb : b ∈ other) :
    (endNameAt en a b, false) ∈ groupCallList en other whole g := by
  simp only [groupCallList, List.mem_flatMap, List.mem_append, List.mem_map]
  exact ⟨a, ha, Or.inl (Or.inl ⟨b, hb, rfl⟩)⟩

theorem mem_groupCallList_dis_in {en : List (List EndName)} {other whole g : List Nat}
    {a b : Nat} (ha : a ∈ g) (hb : b ∈ other) :
    (endNameAt en b a, false) ∈ groupCallList en other whole g := by
  simp only [groupCallList, List.mem_flatMap, List.mem_append, List.mem_map]
  exact ⟨a, ha, Or.inl (Or.inr ⟨b, hb, rfl⟩)⟩

theorem mem_groupCallList_con_out {en : List (List EndName)} {other whole g : List Nat}
    {a b : Nat} (ha : a ∈ g) (hb : b ∈ whole) :
    (endNameAt en a b, true) ∈ groupCallList en other whole g := by
  simp only [groupCallList, List.mem_flatMap, List.mem_append, List.mem_map]
  exact ⟨a, ha, Or.inr (Or.inl ⟨b, hb, rfl⟩)⟩

/-- Every call issued by `partition(p1, p2)` is either a disable of a link
crossing the two groups or an enable of a link inside one group. -/
theorem partitionCallList_shape {en : List (List EndName)} {p1 p2 : List Nat} :
    ∀ c ∈ groupCallList en p2 p1 p1 ++ groupCallList en p1 p2 p2,
      (∃ x y, ((x ∈ p1 ∧ y ∈ p2) ∨ (x ∈ p2 ∧ y ∈ p1)) ∧
        c = (endNameAt en x y, false)) ∨
      (∃ x y, ((x ∈ p1 ∧ y ∈ p1) ∨ (x ∈ p2 ∧ y ∈ p2)) ∧
        c = (endNameAt en x y, true)) := by
  intro c hc
  rcases List.mem_append.1 hc with h1 | h2
  · rcases groupCallList_shape c h1 with ⟨x, y, hx, hy, hf | hf⟩ | ⟨x, y, hx, hy, ht | ht⟩
    · exact Or.inl ⟨x, y, Or.inl ⟨hx, hy⟩, hf⟩
    · exact Or.inl ⟨y, x, Or.inr ⟨hy, hx⟩, hf⟩
    · exact Or.inr ⟨x, y, Or.inl ⟨hx, hy⟩, ht⟩
    · exact Or.inr ⟨y, x, Or.inl ⟨hy, hx⟩, ht⟩
  · rcases groupCallList_shape c h2 with ⟨x, y, hx, hy, hf | hf⟩ | ⟨x, y, hx, hy, ht | ht⟩
    · exact Or.inl ⟨x, y, Or.inr ⟨hx, hy⟩, hf⟩
    · exact Or.inl ⟨y, x, Or.inl ⟨hy, hx⟩, hf⟩
    · exact Or.inr ⟨x, y, Or.inr ⟨hx, hy⟩, ht⟩
    · exact Or.inr ⟨y, x, Or.inr ⟨hy, hx⟩, ht⟩

end Calls

/-- A concrete harness built by the real constructor, used to instantiate
theorems with hypotheses on sample states. -/
def sampleCfg (n : Nat) : Config := Config.new n false 0 0

/-- C4: For every pair of disjoint index sets `p1` and `p2`, after
`partition(p1, p2)` every directed endpoint from an index in `p1` to an index
in `p2` (and vice versa) is disabled, every endpoint between two indices
within the same group is enabled, and indices omitted from both groups retain
their prior connectivity.  The hypotheses are the state invariants of a live
harness: an `n×n` name matrix with pairwise-distinct entries. -/
theorem partition_disables_cross_enables_intra_preserves_rest
    (cfg : Config) (p1 p2 : List Nat)
    (hen : cfg.endnames.length = cfg.n)
    (hrow : ∀ r ∈ cfg.endnames, r.length = cfg.n)
    (hp1 : ∀ a ∈ p1, a < cfg.n) (hp2 : ∀ a ∈ p2, a < cfg.n)
    (hdisj : ∀ a, a ∈ p1 → a ∉ p2)
    (hinj : ∀ x y x' y', x < cfg.n → y < cfg.n → x' < cfg.n → y' < cfg.n →
      endNameAt cfg.endnames x y = endNameAt cfg.endnames x' y' → x = x' ∧ y = y') :
    (∀ a ∈ p1, ∀ b ∈ p2,
      (cfg.partition p1 p2).net.enabled (endNameAt cfg.endnames a b) = false ∧
      (cfg.partition p1 p2).net.enabled (endNameAt cfg.endnames b a) = false) ∧
    (∀ a ∈ p1, ∀ b ∈ p1,
      (cfg.partition p1 p2).net.enabled (endNameAt cfg.endnames a b) = true) ∧
    (∀ a ∈ p2, ∀ b ∈ p2,
      (cfg.partition p1 p2).net.enabled (endNameAt cfg.endnames a b) = true) ∧
    (∀ c d, c < cfg.n → d < cfg.n → c ∉ p1 → c ∉ p2 →
      (cfg.partition p1 p2).net.enabled (endNameAt cfg.endnames c d) =
        cfg.net.enabled (endNameAt cfg.endnames c d) ∧
      (cfg.partition p1 p2).net.enabled (endNameAt cfg.endnames d c) =
        cfg.net.enabled (endNameAt cfg.endnames d c)) := by
  have hL : partitionCalls cfg.endnames p1 p2 =
      some (groupCallList cfg.endnames p2 p1 p1 ++ groupCallList cfg.endnames p1 p2 p2) :=
    partitionCalls_eq hen hrow hp1 hp2
  have hflag : ∀ x, (cfg.partition p1 p2).net.enabled x =
      applyCalls cfg.net.enabled
        (groupCallList cfg.endnames p2 p1 p1 ++ groupCallList cfg.endnames p1 p2 p2) x := by
    intro x
    simp [Config.partition, Network.applyCalls, hL]
  have hcross : ∀ a b, a ∈ p1 → b ∈ p2 →
      applyCalls cfg.net.enabled
        (groupCallList cfg.endnames p2 p1 p1 ++ groupCallList cfg.endnames p1 p2 p2)
        (endNameAt cfg.endnames a b) = false := by
    intro a b ha hb
    have ha' : a < cfg.n := hp1 a ha
    have hb' : b < cfg.n := hp2 b hb
    apply applyCalls_mentioned
    · exact ⟨(endNameAt cfg.endnames a b, false),
        List.mem_append_left _ (mem_groupCallList_dis_out ha hb), rfl⟩
    · intro c hc hc1
      rcases partitionCallList_shape c hc with ⟨x, y, hxy, rfl⟩ | ⟨x, y, hxy, rfl⟩
      · rfl
      · exfalso
        have hx : x < cfg.n := by
          rcases hxy with ⟨h1, _⟩ | ⟨h1, _⟩
          exacts [hp1 x h1, hp2 x h1]
        have hy : y < cfg.n := by
          rcases hxy with ⟨_, h2⟩ | ⟨_, h2⟩
          exacts [hp1 y h2, hp2 y h2]
        have hc1' : endNameAt cfg.endnames x y = endNameAt cfg.endnames a b := hc1
        obtain ⟨hxa, hyb⟩ := hinj x y a b hx hy ha' hb' hc1'
        rcases hxy with ⟨_, hbp1⟩ | ⟨hap2, _⟩
        · exact hdisj b (hyb ▸ hbp1) hb
        · exact hdisj a ha (hxa ▸ hap2)
  have hintra : ∀ a b, ((a ∈ p1 ∧ b ∈ p1) ∨ (a ∈ p2 ∧ b ∈ p2)) →
      applyCalls cfg.net.enabled
        (groupCallList cfg.endnames p2 p1 p1 ++ groupCallList cfg.endnames p1 p2 p2)
        (endNameAt cfg.endnames a b) = true := by
    intro a b hab
    have ha' : a < cfg.n := by
      rcases hab with ⟨h1, _⟩ | ⟨h1, _⟩
      exacts [hp1 a h1, hp2 a h1]
    have hb' : b < cfg.n := by
      rcases hab with ⟨_, h2⟩ | ⟨_, h2⟩
      exacts [hp1 b h2, hp2 b h2]
    apply applyCalls_mentioned
    · rcases hab with ⟨ha, hb⟩ | ⟨ha, hb⟩
      · exact ⟨(endNameAt cfg.endnames a b, true),
          List.mem_append_left _ (mem_groupCallList_con_out ha hb), rfl⟩
      · exact ⟨(endNameAt cfg.endnames a b, true),
          List.mem_append_right _ (mem_groupCallList_con_out ha hb), rfl⟩
    · intro c hc hc1
      rcases partitionCallList_shape c hc with ⟨x, y, hxy, rfl⟩ | ⟨x, y, hxy, rfl⟩
      · exfalso
        have hx : x < cfg.n := by
          rcases hxy with ⟨h1, _⟩ | ⟨h1, _⟩
          exacts [hp1 x h1, hp2 x h1]
        have hy : y < cfg.n := by
          rcases hxy with ⟨_, h2⟩ | ⟨_, h2⟩
          exacts [hp2 y h2, hp1 y h2]
        have hc1' : endNameAt cfg.endnames x y = endNameAt cfg.endnames a b := hc1
        obtain ⟨hxa, hyb⟩ := hinj x y a b hx hy ha' hb' hc1'
        rcases hxy with ⟨hxp1, hyp2⟩ | ⟨hxp2, hyp1⟩
        · rcases hab with ⟨_, hbp1⟩ | ⟨hap2, _⟩
          · exact hdisj b hbp1 (hyb ▸ hyp2)
          · exact hdisj a (hxa ▸ hxp1) hap2
        · rcases hab with ⟨hap1, _⟩ | ⟨_, hbp2⟩
          · exact hdisj a hap1 (hxa ▸ hxp2)
          · exact hdisj b (hyb ▸ hyp1) hbp2
      · rfl
  have huntouched : ∀ u v, u < cfg.n → v < cfg.n → u ∉ p1 → u ∉ p2 →
      applyCalls cfg.net.enabled
        (groupCallList cfg.endnames p2 p1 p1 ++ groupCallList cfg.endnames p1 p2 p2)
        (endNameAt cfg.endnames u v) = cfg.net.enabled (endNameAt cfg.endnames u v) := by
    intro u v hu hv hu1 hu2
    apply applyCalls_not_mentioned
    intro c hc hc1
    rcases partitionCallList_shape c hc with ⟨x, y, hxy, rfl⟩ | ⟨x, y, hxy, rfl⟩ <;>
    · have hx : x < cfg.n := by
        rcases hxy with ⟨h1, _⟩ | ⟨h1, _⟩
        exacts [hp1 x h1, hp2 x h1]
      have hy : y < cfg.n := by
        rcases hxy with ⟨_, h2⟩ | ⟨_, h2⟩
        first
          | exacts [hp2 y h2, hp1 y h2]
          | exacts [hp1 y h2, hp2 y h2]
      have hc1' : endNameAt cfg.endnames x y = endNameAt cfg.endnames u v := hc1
      obtain ⟨hxu, _⟩ := hinj x y u v hx hy hu hv hc1'
      subst hxu
      rcases hxy with ⟨h1, _⟩ | ⟨h1, _⟩
      exacts [hu1 h1, hu2 h1]
  have huntouched2 : ∀ u v, u < cfg.n → v < cfg.n → u ∉ p1 → u ∉ p2 →
      applyCalls cfg.net.enabled
        (groupCallList cfg.endnames p2 p1 p1 ++ groupCallList cfg.endnames p1 p2 p2)
        (endNameAt cfg.endnames v u) = cfg.net.enabled (endNameAt cfg.endnames v u) := by
    intro u v hu hv hu1 hu2
    apply applyCalls_not_mentioned
    intro c hc hc1
    rcases partitionCallList_shape c hc with ⟨x, y, hxy, rfl⟩ | ⟨x, y, hxy, rfl⟩ <;>
    · have hx : x < cfg.n := by
        rcases hxy with ⟨h1, _⟩ | ⟨h1, _⟩
        exacts [hp1 x h1, hp2 x h1]
      have hy : y < cfg.n := by
        rcases hxy with ⟨_, h2⟩ | ⟨_, h2⟩
        first
          | exacts [hp2 y h2, hp1 y h2]
          | exacts [hp1 y h2, hp2 y h2]
      have hc1' : endNameAt cfg.endnames x y = endNameAt cfg.endnames v u := hc1
      obtain ⟨_, hyu⟩ := hinj x y v u hx hy hv hu hc1'
      subst hyu
      rcases hxy with ⟨_, h2⟩ | ⟨_, h2⟩ <;>
        first
          | exact hu2 h2
          | exact hu1 h2
  refine ⟨fun a ha b hb => ⟨?_, ?_⟩, fun a ha b hb => ?_, fun a ha b hb => ?_,
    fun c d hc hd hc1 hc2 => ⟨?_, ?_⟩⟩
  · rw [hflag]; exact hcross a b ha hb
  · rw [hflag]
    apply applyCalls_mentioned
    · exact ⟨(endNameAt cfg.endnames b a, false),
        List.mem_append_left _ (mem_groupCallList_dis_in ha hb), rfl⟩
    · intro c hc hc1
      rcases partitionCallList_shape c hc with ⟨x, y, hxy, rfl⟩ | ⟨x, y, hxy, rfl⟩
      · rfl
      · exfalso
        have hx : x < cfg.n := by
          rcases hxy with ⟨h1, _⟩ | ⟨h1, _⟩
          exacts [hp1 x h1, hp2 x h1]
        have hy : y < cfg.n := by
          rcases hxy with ⟨_, h2⟩ | ⟨_, h2⟩
          exacts [hp1 y h2, hp2 y h2]
        have hc1' : endNameAt cfg.endnames x y = endNameAt cfg.endnames b a := hc1
        obtain ⟨hxb, hya⟩ := hinj x y b a hx hy (hp2 b hb) (hp1 a ha) hc1'
        subst hxb; subst hya
        rcases hxy with ⟨hxp1, _⟩ | ⟨_, hyp2⟩
        · exact hdisj x hxp1 hb
        · exact hdisj y ha hyp2
  · rw [hflag]; exact hintra a b (Or.inl ⟨ha, hb⟩)
  · rw [hflag]; exact hintra a b (Or.inr ⟨ha, hb⟩)
  · rw [hflag]; exact huntouched c d hc hd hc1 hc2
  · rw [hflag]; exact huntouched2 c d hc hd hc1 hc2

/-- Witness: the theorem applied to a concrete 3-peer harness partitioned
into `[0]` and `[1]`, with peer `2` omitted. -/
theorem partition_disables_cross_enables_intra_preserves_rest_witness :
    ((Config.partition (sampleCfg 3) [0] [1]).net.enabled
        (endNameAt (sampleCfg 3).endnames 0 1) = false) ∧
    ((Config.partition (sampleCfg 3) [0] [1]).net.enabled
        (endNameAt (sampleCfg 3).endnames 0 0) = true) ∧
    ((Config.partition (sampleCfg 3) [0] [1]).net.enabled
        (endNameAt (sampleCfg 3).endnames 2 1) =
      (sampleCfg 3).net.enabled (endNameAt (sampleCfg 3).endnames 2 1)) := by
  have hd : ∀ x ∈ List.range 3, ∀ y ∈ List.range 3, ∀ x' ∈ List.range 3, ∀ y' ∈ List.range 3,
      (endNameAt (sampleCfg 3).endnames x y = endNameAt (sampleCfg 3).endnames x' y' →
        x = x' ∧ y = y') := by decide
  have h := partition_disables_cross_enables_intra_preserves_rest (sampleCfg 3) [0] [1]
    (by decide) (by decide) (by decide) (by decide) (by decide)
    (fun x y x' y' hx hy hx' hy' =>
      hd x (List.mem_range.2 hx) y (List.mem_range.2 hy)
        x' (List.mem_range.2 hx') y' (List.mem_range.2 hy'))
  exact ⟨(h.1 0 (by decide) 1 (by decide)).1,
    h.2.1 0 (by decide) 0 (by decide),
    (h.2.2.2 2 1 (by decide) (by decide) (by decide) (by decide)).1⟩

/-! ## Totality and empty-row behaviour of `disconnect` -/

theorem disconnectOutCalls_total (en : List (List EndName)) (i : Nat)
    (hi : i < en.length)
    (hrows : ∀ r ∈ en, r.length = en.length ∨ r = []) :
    ∀ from_ : List Nat, (∀ k ∈ from_, k < en.length) →
      ∃ cs, disconnectOutCalls en i from_ = some cs := by
  intro from_
  induction from_ with
  | nil => intro _; exact ⟨[], rfl⟩
  | cons k ks ih =>
    intro hfrom
    obtain ⟨cs, hcs⟩ := ih (fun a ha => hfrom a (List.mem_cons_of_mem _ ha))
    have h1 : en[i]? = some en[i] := List.getElem?_eq_getElem hi
    rcases hrows en[i] (List.getElem_mem hi) with hlen | hnil
    · have hk : k < en[i].length := hlen ▸ hfrom k (List.mem_cons_self ..)
      have hne : en[i] ≠ [] := by
        intro h
        rw [h] at hk
        simp at hk
      refine ⟨(en[i][k], false) :: cs, ?_⟩
      rw [disconnectOutCalls, h1]
      simp [hne, List.getElem?_eq_getElem hk, hcs]
    · refine ⟨cs, ?_⟩
      rw [disconnectOutCalls, h1]
      simp [hnil, hcs]

theorem disconnectInCalls_total (en : List (List EndName)) (i : Nat)
    (hi : i < en.length)
    (hrows : ∀ r ∈ en, r.length = en.length ∨ r = []) :
    ∀ from_ : List Nat, (∀ k ∈ from_, k < en.length) →
      ∃ cs, disconnectInCalls en i from_ = some cs := by
  intro from_
  induction from_ with
  | nil => intro _; exact ⟨[], rfl⟩
  | cons k ks ih =>
    intro hfrom
    obtain ⟨cs, hcs⟩ := ih (fun a ha => hfrom a (List.mem_cons_of_mem _ ha))
    have hk : k < en.length := hfrom k (List.mem_cons_self ..)
    have h1 : en[k]? = some en[k] := List.getElem?_eq_getElem hk
    rcases hrows en[k] (List.getElem_mem hk) with hlen | hnil
    · have hik : i < en[k].length := hlen ▸ hi
      have hne : en[k] ≠ [] := by
        intro h
        rw [h] at hik
        simp at hik
      refine ⟨(en[k][i], false) :: cs, ?_⟩
      rw [disconnectInCalls, h1]
      simp [hne, List.getElem?_eq_getElem hik, hcs]
    · refine ⟨cs, ?_⟩
      rw [disconnectInCalls, h1]
      simp [hnil, hcs]

theorem disconnectOutCalls_empty_row (en : List (List EndName)) (i : Nat)
    (hrow : en[i]? = some []) :
    ∀ from_ : List Nat, disconnectOutCalls en i from_ = some [] := by
  intro from_
  induction from_ with
  | nil => rfl
  | cons k ks ih =>
    rw [disconnectOutCalls, hrow]
    simpa using ih

theorem disconnectInCalls_empty_row_skip (en : List (List EndName)) (i j : Nat)
    (js : List Nat) (hrow : en[j]? = some []) :
    disconnectInCalls en i (j :: js) = disconnectInCalls en i js := by
  rw [disconnectInCalls, hrow]
  rfl

/-- C8: `disconnect(i, from)` is total over sets of peer indices — on a
well-formed matrix (every row full or empty) it issues a call list and never
panics — and an index whose endpoint-name slot (its `endnames` row) is
currently empty is treated as a no-op, not an error: an empty row `i` makes
the outgoing loop issue no `enable` call at all, and an empty row `j` in the
`from` set contributes no incoming `enable` call. -/
theorem disconnect_total_and_empty_row_noop (en : List (List EndName))
    (i j : Nat) (js from_ : List Nat)
    (hi : i < en.length) (hfrom : ∀ k ∈ from_, k < en.length)
    (hrows : ∀ r ∈ en, r.length = en.length ∨ r = []) :
    (∃ cs, disconnectCalls en i from_ = some cs) ∧
    (en[i]? = some [] → disconnectOutCalls en i from_ = some []) ∧
    (en[j]? = some [] →
      disconnectInCalls en i (j :: js) = disconnectInCalls en i js) := by
  refine ⟨?_, ?_, ?_⟩
  · obtain ⟨a, ha⟩ := disconnectOutCalls_total en i hi hrows from_ hfrom
    obtain ⟨b, hb⟩ := disconnectInCalls_total en i hi hrows from_ hfrom
    refine ⟨a ++ b, ?_⟩
    rw [disconnectCalls, ha, hb]
    rfl
  · intro hrow
    exact disconnectOutCalls_empty_row en i hrow from_
  · intro hrow
    exact disconnectInCalls_empty_row_skip en i j js hrow

/-- Witness: `disconnect` on a matrix whose row 0 is empty (row 1 full)
succeeds and skips the empty slot. -/
theorem disconnect_total_and_empty_row_noop_witness :
    (∃ cs, disconnectCalls [[], [EndName.id 0, EndName.id 1]] 0 [0, 1] = some cs) ∧
    (disconnectOutCalls [[], [EndName.id 0, EndName.id 1]] 0 [0, 1] = some []) ∧
    (disconnectInCalls [[], [EndName.id 0, EndName.id 1]] 0 (0 :: [1]) =
      disconnectInCalls [[], [EndName.id 0, EndName.id 1]] 0 [1]) := by
  have h := disconnect_total_and_empty_row_noop [[], [EndName.id 0, EndName.id 1]]
    0 0 [1] [0, 1] (by decide) (by decide) (by decide)
  exact ⟨h.1, h.2.1 (by decide), h.2.2 (by decide)⟩

/-! ## Structural facts about `shutdown_server` / `start_server` -/

theorem shutdownServer_saved (cfg : Config) (i : Nat) :
    (cfg.shutdownServer i).saved = cfg.saved.set i cfg.heap.length := rfl

theorem shutdownServer_heap (cfg : Config) (i : Nat) :
    (cfg.shutdownServer i).heap = cfg.heap ++ [cfg.persistAt i] := rfl

theorem shutdownServer_kvservers (cfg : Config) (i : Nat) :
    (cfg.shutdownServer i).kvservers = cfg.kvservers.set i none := rfl

theorem shutdownServer_endnames (cfg : Config) (i : Nat) :
    (cfg.shutdownServer i).endnames = cfg.endnames := rfl

theorem startServer_saved (cfg : Config) (i : Nat) :
    (cfg.startServer i).saved = cfg.saved.set i cfg.heap.length := rfl

theorem startServer_heap (cfg : Config) (i : Nat) :
    (cfg.startServer i).heap = cfg.heap ++ [cfg.persistAt i] := rfl

theorem startServer_kvservers (cfg : Config) (i : Nat) :
    (cfg.startServer i).kvservers =
      cfg.kvservers.set i (some { pid := cfg.heap.length, isLeader := false }) := rfl

theorem startServer_endnames (cfg : Config) (i : Nat) :
    (cfg.startServer i).endnames =
      cfg.endnames.set i ((List.range cfg.n).map fun k => uniqName (cfg.nextId + k)) := rfl

/-! ## Persistence-continuity lemmas -/

/-- The rollover installs a fresh persister seeded with a byte-for-byte copy:
the peer's visible persisted bytes do not change. -/
theorem persistAt_rollPersister_self (cfg : Config) (i : Nat)
    (hi : i < cfg.saved.length) :
    (cfg.rollPersister i).persistAt i = cfg.persistAt i := by
  unfold Config.persistAt Config.rollPersister
  simp only [List.getD_eq_getElem?_getD, List.getElem?_set_eq_of_lt _ hi,
    Option.getD_some, List.getElem?_append_right (le_refl cfg.heap.length)]
  simp

/-- The rollover at `i` leaves every other peer's visible persisted bytes
unchanged (its pid still points below the old heap end). -/
theorem persistAt_rollPersister_ne (cfg : Config) (i j : Nat) (hne : j ≠ i)
    (hv : cfg.saved.getD j 0 < cfg.heap.length) :
    (cfg.rollPersister i).persistAt j = cfg.persistAt j := by
  unfold Config.persistAt Config.rollPersister
  simp only [List.getD_eq_getElem?_getD, List.getElem?_set_ne (fun h => hne h.symm)]
  rw [List.getElem?_append_left]
  rw [List.getD_eq_getElem?_getD] at hv
  exact hv

/-- The rollover preserves every peer's visible persisted bytes. -/
theorem persistAt_rollPersister (cfg : Config) (i j : Nat)
    (hj : j < cfg.saved.length)
    (hv : ∀ p ∈ cfg.saved, p < cfg.heap.length) :
    (cfg.rollPersister i).persistAt j = cfg.persistAt j := by
  by_cases h : j = i
  · subst h
    exact persistAt_rollPersister_self cfg j hj
  · refine persistAt_rollPersister_ne cfg i j h ?_
    have : cfg.saved.getD j 0 = cfg.saved[j] := by
      simp [List.getD_eq_getElem?_getD, List.getElem?_eq_getElem hj]
    rw [this]
    exact hv _ (List.getElem_mem hj)

/-- C7: `shutdown_server(i)` performs its steps in this exact order — first
the bidirectional disconnect of `i` from every peer (all its `enable(_,
false)` calls), then the deregistration of server id `i` from the network,
then the persisted-state rollover, and only then the kill of the server node
pair; and the rollover seeds the fresh container with a copy of the old
bytes. -/
theorem shutdownServer_step_order (cfg : Config) (i : Nat) (hi : i < cfg.n)
    (hen : cfg.endnames.length = cfg.n)
    (hrow : ∀ r ∈ cfg.endnames, r.length = cfg.n)
    (hsv : cfg.saved.length = cfg.n)
    (inst : ServerInst) (hlive : cfg.kvservers.getD i none = some inst) :
    (cfg.shutdownServerT i).2 =
      (((List.range cfg.n).map fun j => Ev.enable (endNameAt cfg.endnames i j) false) ++
       ((List.range cfg.n).map fun j => Ev.enable (endNameAt cfg.endnames j i) false)) ++
      [Ev.deleteServer i, Ev.rollPersist i] ++ [Ev.kill i] ∧
    (cfg.shutdownServer i).persistAt i = cfg.persistAt i := by
  constructor
  · have hd := disconnectCalls_eq hen hrow hi (List.range cfg.n)
      (fun j hj => List.mem_range.1 hj)
    show ((disconnectCalls cfg.endnames i (List.range cfg.n)).getD []).map
        (fun c => Ev.enable c.1 c.2) ++ [Ev.deleteServer i, Ev.rollPersist i] ++
        (match cfg.kvservers.getD i none with
          | some _ => [Ev.kill i]
          | none => []) = _
    rw [hd, hlive]
    simp only [List.map_append, List.map_map, List.append_assoc, Option.getD_some]
    rfl
  · show (cfg.rollPersister i).persistAt i = cfg.persistAt i
    exact persistAt_rollPersister_self cfg i (hsv ▸ hi)

/-- Witness: the step order observed on a concrete 2-peer harness. -/
theorem shutdownServer_step_order_witness :
    ((sampleCfg 2).shutdownServerT 0).2 =
      (((List.range (sampleCfg 2).n).map
          fun j => Ev.enable (endNameAt (sampleCfg 2).endnames 0 j) false) ++
       ((List.range (sampleCfg 2).n).map
          fun j => Ev.enable (endNameAt (sampleCfg 2).endnames j 0) false)) ++
      [Ev.deleteServer 0, Ev.rollPersist 0] ++ [Ev.kill 0] ∧
    ((sampleCfg 2).shutdownServer 0).persistAt 0 = (sampleCfg 2).persistAt 0 :=
  shutdownServer_step_order (sampleCfg 2) 0 (by decide) (by decide) (by decide)
    (by decide) { pid := 2, isLeader := false } (by decide)

/-! ## Size queries under restart -/

theorem ite_lt_eq_max (m k : Nat) : (if m < k then k else m) = max m k := by
  by_cases h : m < k <;> simp [h] <;> omega

theorem logSize_eq_fold (cfg : Config) :
    cfg.logSize =
      (cfg.saved.map fun pid => (cfg.heap.getD pid default).raftState.length).foldl
        max 0 := by
  rw [List.foldl_map]
  unfold Config.logSize
  simp only [ite_lt_eq_max]

theorem snapshotSize_eq_fold (cfg : Config) :
    cfg.snapshotSize =
      (cfg.saved.map fun pid => (cfg.heap.getD pid default).snapshot.length).foldl
        max 0 := by
  rw [List.foldl_map]
  unfold Config.snapshotSize
  simp only [ite_lt_eq_max]

/-- Two states whose peers see pointwise-equal persisted bytes produce the
same per-peer byte-length list for any projection of the persisted data. -/
theorem persist_map_eq (g : PersistData → List Nat) (cfg cfg' : Config)
    (hlen : cfg'.saved.length = cfg.saved.length)
    (hpt : ∀ j, j < cfg.saved.length → cfg'.persistAt j = cfg.persistAt j) :
    (cfg'.saved.map fun pid => (g (cfg'.heap.getD pid default)).length) =
      (cfg.saved.map fun pid => (g (cfg.heap.getD pid default)).length) := by
  apply List.ext_getElem
  · simp [hlen]
  · intro j h1 h2
    have hj : j < cfg.saved.length := by simpa using h2
    have hj2 : j < cfg'.saved.length := by simpa using h1
    simp only [List.getElem_map]
    have e1 : cfg'.saved[j] = cfg'.saved.getD j 0 := by
      simp [List.getD_eq_getElem?_getD, List.getElem?_eq_getElem hj2]
    have e2 : cfg.saved[j] = cfg.saved.getD j 0 := by
      simp [List.getD_eq_getElem?_getD, List.getElem?_eq_getElem hj]
    have hp := hpt j hj
    unfold Config.persistAt at hp
    rw [e1, e2, hp]

/-- C3: `shutdown_server(i)` immediately followed by `start_server(i)`, with
no intervening saves, leaves `log_size()` and `snapshot_size()` unchanged. -/
theorem sizes_unchanged_by_shutdown_start (cfg : Config) (i : Nat)
    (hi : i < cfg.saved.length)
    (hv : ∀ p ∈ cfg.saved, p < cfg.heap.length) :
    ((cfg.shutdownServer i).startServer i).logSize = cfg.logSize ∧
    ((cfg.shutdownServer i).startServer i).snapshotSize = cfg.snapshotSize := by
  have hpt1 : ∀ j, j < cfg.saved.length →
      (cfg.shutdownServer i).persistAt j = cfg.persistAt j := by
    intro j hj
    show (cfg.rollPersister i).persistAt j = cfg.persistAt j
    exact persistAt_rollPersister cfg i j hj hv
  have hlen1 : (cfg.shutdownServer i).saved.length = cfg.saved.length := by
    rw [shutdownServer_saved]
    exact List.length_set ..
  have hv1 : ∀ p ∈ (cfg.shutdownServer i).saved, p < (cfg.shutdownServer i).heap.length := by
    intro p hp
    rw [shutdownServer_saved] at hp
    rw [shutdownServer_heap, List.length_append]
    rcases List.mem_or_eq_of_mem_set hp with h | h
    · have := hv p h
      omega
    · simp [h]
  have hpt2 : ∀ j, j < cfg.saved.length →
      ((cfg.shutdownServer i).startServer i).persistAt j =
        (cfg.shutdownServer i).persistAt j := by
    intro j hj
    show ((cfg.shutdownServer i).rollPersister i).persistAt j = _
    exact persistAt_rollPersister (cfg.shutdownServer i) i j (hlen1 ▸ hj) hv1
  have hptall : ∀ j, j < cfg.saved.length →
      ((cfg.shutdownServer i).startServer i).persistAt j = cfg.persistAt j := by
    intro j hj
    rw [hpt2 j hj, hpt1 j hj]
  have hlen2 : ((cfg.shutdownServer i).startServer i).saved.length = cfg.saved.length := by
    rw [startServer_saved, List.length_set]
    exact hlen1
  constructor
  · rw [logSize_eq_fold, logSize_eq_fold,
      persist_map_eq (fun d => d.raftState) cfg _ hlen2 hptall]
  · rw [snapshotSize_eq_fold, snapshotSize_eq_fold,
      persist_map_eq (fun d => d.snapshot) cfg _ hlen2 hptall]

/-- Witness: the size round-trip on a concrete 2-peer harness. -/
theorem sizes_unchanged_by_shutdown_start_witness :
    (((sampleCfg 2).shutdownServer 0).startServer 0).logSize = (sampleCfg 2).logSize ∧
    (((sampleCfg 2).shutdownServer 0).startServer 0).snapshotSize =
      (sampleCfg 2).snapshotSize :=
  sizes_unchanged_by_shutdown_start (sampleCfg 2) 0 (by decide) (by decide)

/-! ## Persistence continuity across restart, with a zombie old instance -/

theorem zombieFold_saved (p : Nat) (ws : List (List Nat × List Nat)) :
    ∀ c : Config, (ws.foldl (fun c w => c.heapSave p w.1 w.2) c).saved = c.saved := by
  induction ws with
  | nil => intro c; rfl
  | cons w ws ih =>
    intro c
    rw [List.foldl_cons]
    exact ih _

theorem zombieFold_kvservers (p : Nat) (ws : List (List Nat × List Nat)) :
    ∀ c : Config,
      (ws.foldl (fun c w => c.heapSave p w.1 w.2) c).kvservers = c.kvservers := by
  induction ws with
  | nil => intro c; rfl
  | cons w ws ih =>
    intro c
    rw [List.foldl_cons]
    exact ih _

theorem zombieFold_heap_length (p : Nat) (ws : List (List Nat × List Nat)) :
    ∀ c : Config,
      (ws.foldl (fun c w => c.heapSave p w.1 w.2) c).heap.length = c.heap.length := by
  induction ws with
  | nil => intro c; rfl
  | cons w ws ih =>
    intro c
    rw [List.foldl_cons, ih _]
    simp [Config.heapSave]

/-- A write through the superseded instance's pid cannot touch any other
persister's bytes. -/
theorem zombieFold_heap_getD_ne (p q : Nat) (hne : q ≠ p)
    (ws : List (List Nat × List Nat)) :
    ∀ c : Config,
      (ws.foldl (fun c w => c.heapSave p w.1 w.2) c).heap.getD q default =
        c.heap.getD q default := by
  induction ws with
  | nil => intro c; rfl
  | cons w ws ih =>
    intro c
    rw [List.foldl_cons, ih _]
    simp [Config.heapSave, List.getD_eq_getElem?_getD,
      List.getElem?_set_ne (fun h => hne h.symm)]

/-- C2: across `shutdown_server(i)` then `start_server(i)`, the bytes handed
to the newly constructed instance are exactly the bytes last saved by the
prior instance before shutdown began — even if the superseded instance keeps
writing through its retained persister handle (`ws1` between shutdown and
start, `ws2` after start), and the new instance's persister is a fresh one,
distinct from the superseded instance's. -/
theorem restart_hands_exactly_last_persisted_bytes (cfg : Config) (i : Nat)
    (hi : i < cfg.saved.length)
    (hv : ∀ p ∈ cfg.saved, p < cfg.heap.length)
    (inst : ServerInst) (hlive : cfg.kvservers.getD i none = some inst)
    (hpid : inst.pid = cfg.saved.getD i 0)
    (ws1 ws2 : List (List Nat × List Nat)) :
    ∃ newInst : ServerInst,
      ((ws1.foldl (fun c w => c.heapSave inst.pid w.1 w.2)
          (cfg.shutdownServer i)).startServer i).kvservers.getD i none = some newInst ∧
      newInst.pid ≠ inst.pid ∧
      ((ws1.foldl (fun c w => c.heapSave inst.pid w.1 w.2)
          (cfg.shutdownServer i)).startServer i).heap.getD newInst.pid default =
        cfg.persistAt i ∧
      (ws2.foldl (fun c w => c.heapSave inst.pid w.1 w.2)
          ((ws1.foldl (fun c w => c.heapSave inst.pid w.1 w.2)
            (cfg.shutdownServer i)).startServer i)).heap.getD newInst.pid default =
        cfg.persistAt i := by
  have hpidlt : inst.pid < cfg.heap.length := by
    rw [hpid]
    have : cfg.saved.getD i 0 = cfg.saved[i] := by
      simp [List.getD_eq_getElem?_getD, List.getElem?_eq_getElem hi]
    rw [this]
    exact hv _ (List.getElem_mem hi)
  have hk : i < cfg.kvservers.length := by
    by_contra h
    rw [List.getD_eq_getElem?_getD, List.getElem?_eq_none (by omega)] at hlive
    cases hlive
  set cfg1 := cfg.shutdownServer i with hcfg1
  set cfg2 := ws1.foldl (fun c w => c.heapSave inst.pid w.1 w.2) cfg1 with hcfg2
  have h2saved : cfg2.saved = cfg.saved.set i cfg.heap.length := by
    rw [hcfg2, zombieFold_saved, hcfg1, shutdownServer_saved]
  have h2heaplen : cfg2.heap.length = cfg.heap.length + 1 := by
    rw [hcfg2, zombieFold_heap_length, hcfg1, shutdownServer_heap,
      List.length_append]
    rfl
  have h2heapA : cfg2.heap.getD cfg.heap.length default = cfg.persistAt i := by
    rw [hcfg2, zombieFold_heap_getD_ne _ _ (by omega), hcfg1, shutdownServer_heap,
      List.getD_eq_getElem?_getD, List.getElem?_append_right (le_refl _)]
    simp
  have h2persist : cfg2.persistAt i = cfg.persistAt i := by
    unfold Config.persistAt
    rw [h2saved,
      List.getD_eq_getElem?_getD (cfg.saved.set i cfg.heap.length) i 0,
      List.getElem?_set_eq_of_lt _ hi, Option.getD_some]
    exact h2heapA
  have hne2 : cfg2.heap.length ≠ inst.pid := by omega
  have h3 : (cfg2.startServer i).heap.getD cfg2.heap.length default =
      cfg.persistAt i := by
    rw [startServer_heap, List.getD_eq_getElem?_getD,
      List.getElem?_append_right (le_refl _)]
    simp only [Nat.sub_self, List.getElem?_cons_zero, Option.getD_some]
    exact h2persist
  refine ⟨{ pid := cfg2.heap.length, isLeader := false }, ?_, hne2, h3, ?_⟩
  · have hklen : i < cfg2.kvservers.length := by
      rw [hcfg2, zombieFold_kvservers, hcfg1, shutdownServer_kvservers,
        List.length_set]
      exact hk
    rw [startServer_kvservers, List.getD_eq_getElem?_getD,
      List.getElem?_set_eq_of_lt _ hklen, Option.getD_some]
  · rw [zombieFold_heap_getD_ne _ _ hne2]
    exact h3

/-- Witness: restart of peer 0 of a concrete 2-peer harness, with one zombie
write between shutdown and start and one after. -/
theorem restart_hands_exactly_last_persisted_bytes_witness :
    ∃ newInst : ServerInst,
      ((([([9], [8])] : List (List Nat × List Nat)).foldl
          (fun c w => c.heapSave 2 w.1 w.2)
          ((sampleCfg 2).shutdownServer 0)).startServer 0).kvservers.getD 0 none =
        some newInst ∧
      newInst.pid ≠ 2 ∧
      ((([([9], [8])] : List (List Nat × List Nat)).foldl
          (fun c w => c.heapSave 2 w.1 w.2)
          ((sampleCfg 2).shutdownServer 0)).startServer 0).heap.getD
          newInst.pid default =
        (sampleCfg 2).persistAt 0 ∧
      (([([7], [6])] : List (List Nat × List Nat)).foldl
          (fun c w => c.heapSave 2 w.1 w.2)
          ((([([9], [8])] : List (List Nat × List Nat)).foldl
            (fun c w => c.heapSave 2 w.1 w.2)
            ((sampleCfg 2).shutdownServer 0)).startServer 0)).heap.getD
          newInst.pid default =
        (sampleCfg 2).persistAt 0 :=
  restart_hands_exactly_last_persisted_bytes (sampleCfg 2) 0 (by decide) (by decide)
    { pid := 2, isLeader := false } (by decide) (by decide) [([9], [8])] [([7], [6])]

/-! ## Leader discovery -/

/-- Slot `i` is live and reports leadership. -/
def liveLeaderAt (l : List (Option ServerInst)) (i : Nat) : Prop :=
  ∃ inst : ServerInst, l.getD i none = some inst ∧ inst.isLeader = true

theorem liveLeaderAt_nil (i : Nat) : ¬ liveLeaderAt [] i := by
  rintro ⟨inst, h, _⟩
  simp [List.getD] at h

theorem liveLeaderAt_cons_succ (x : Option ServerInst) (l : List (Option ServerInst))
    (i : Nat) : liveLeaderAt (x :: l) (i + 1) ↔ liveLeaderAt l i := by
  unfold liveLeaderAt
  simp [List.getD_cons_succ]

theorem liveLeaderAt_cons_zero (x : Option ServerInst) (l : List (Option ServerInst)) :
    liveLeaderAt (x :: l) 0 ↔ ∃ inst : ServerInst, x = some inst ∧ inst.isLeader = true := by
  unfold liveLeaderAt
  simp [List.getD_cons_zero]

theorem leaderScan_ok_iff :
    ∀ (l : List (Option ServerInst)) (k i : Nat),
      leaderScan l k = Except.ok i ↔
        ∃ d, i = k + d ∧ liveLeaderAt l d ∧ ∀ j < d, ¬ liveLeaderAt l j := by
  intro l
  induction l with
  | nil =>
    intro k i
    constructor
    · intro h
      cases h
    · rintro ⟨d, _, hd, _⟩
      exact absurd hd (liveLeaderAt_nil d)
  | cons x l ih =>
    intro k i
    have hshift : ∀ (hskip : ¬ liveLeaderAt (x :: l) 0),
        (leaderScan l (k + 1) = Except.ok i ↔
          (∃ d, i = k + d ∧ liveLeaderAt (x :: l) d ∧
            ∀ j < d, ¬ liveLeaderAt (x :: l) j)) := by
      intro hskip
      rw [ih (k + 1) i]
      constructor
      · rintro ⟨d, rfl, hd, hmin⟩
        refine ⟨d + 1, by omega, (liveLeaderAt_cons_succ x l d).2 hd, ?_⟩
        intro j hj
        cases j with
        | zero => exact hskip
        | succ j' =>
          rw [liveLeaderAt_cons_succ]
          exact hmin j' (by omega)
      · rintro ⟨d, rfl, hd, hmin⟩
        cases d with
        | zero => exact absurd hd hskip
        | succ d' =>
          refine ⟨d', by omega, (liveLeaderAt_cons_succ x l d').1 hd, ?_⟩
          intro j hj
          have := hmin (j + 1) (by omega)
          rw [liveLeaderAt_cons_succ] at this
          exact this
    cases x with
    | none =>
      have hskip : ¬ liveLeaderAt (none :: l) 0 := by
        rw [liveLeaderAt_cons_zero]
        rintro ⟨inst, h, _⟩
        cases h
      rw [show leaderScan (none :: l) k = leaderScan l (k + 1) from rfl]
      exact hshift hskip
    | some kv =>
      by_cases hkv : kv.isLeader
      · rw [show leaderScan (some kv :: l) k = Except.ok k from by
          simp [leaderScan, hkv]]
        constructor
        · intro h
          cases h
          exact ⟨0, by omega, (liveLeaderAt_cons_zero _ _).2 ⟨kv, rfl, hkv⟩,
            fun j hj => absurd hj (Nat.not_lt_zero j)⟩
        · rintro ⟨d, rfl, hd, hmin⟩
          cases d with
          | zero => rfl
          | succ d' =>
            exact absurd ((liveLeaderAt_cons_zero _ _).2 ⟨kv, rfl, hkv⟩)
              (hmin 0 (by omega))
      · have hskip : ¬ liveLeaderAt (some kv :: l) 0 := by
          rw [liveLeaderAt_cons_zero]
          rintro ⟨inst, h, hl⟩
          cases h
          exact hkv hl
        rw [show leaderScan (some kv :: l) k = leaderScan l (k + 1) from by
          simp [leaderScan, hkv]]
        exact hshift hskip

theorem leaderScan_error_iff :
    ∀ (l : List (Option ServerInst)) (k : Nat),
      leaderScan l k = Except.error Error.noLeader ↔
        ∀ j, ¬ liveLeaderAt l j := by
  intro l
  induction l with
  | nil =>
    intro k
    simp only [leaderScan, true_iff]
    exact fun j => liveLeaderAt_nil j
  | cons x l ih =>
    intro k
    have hsplit : (∀ j, ¬ liveLeaderAt (x :: l) j) ↔
        (¬ liveLeaderAt (x :: l) 0 ∧ ∀ j, ¬ liveLeaderAt l j) := by
      constructor
      · intro h
        refine ⟨h 0, fun j => ?_⟩
        have := h (j + 1)
        rw [liveLeaderAt_cons_succ] at this
        exact this
      · rintro ⟨h0, hrest⟩ j
        cases j with
        | zero => exact h0
        | succ j' =>
          rw [liveLeaderAt_cons_succ]
          exact hrest j'
    cases x with
    | none =>
      rw [show leaderScan (none :: l) k = leaderScan l (k + 1) from rfl, ih, hsplit]
      have h0 : ¬ liveLeaderAt (none :: l) 0 := by
        rw [liveLeaderAt_cons_zero]
        rintro ⟨inst, h, _⟩
        cases h
      tauto
    | some kv =>
      by_cases hkv : kv.isLeader
      · rw [show leaderScan (some kv :: l) k = Except.ok k from by
          simp [leaderScan, hkv]]
        have h0 : liveLeaderAt (some kv :: l) 0 :=
          (liveLeaderAt_cons_zero _ _).2 ⟨kv, rfl, hkv⟩
        constructor
        · intro h
          cases h
        · intro h
          exact absurd h0 (h 0)
      · have h0 : ¬ liveLeaderAt (some kv :: l) 0 := by
          rw [liveLeaderAt_cons_zero]
          rintro ⟨inst, h, hl⟩
          cases h
          exact hkv hl
        rw [show leaderScan (some kv :: l) k = leaderScan l (k + 1) from by
          simp [leaderScan, hkv], ih, hsplit]
        tauto

/-- C5: `leader()` returns `Ok i` exactly when `i` is the smallest index
whose live slot reports leadership, and returns the `NoLeader` error exactly
when no live slot reports leadership — in particular whenever no slot is
live at all.  Being a total function, it never panics. -/
theorem leader_first_live_leader_or_noLeader (cfg : Config) (i : Nat) :
    (cfg.leader = Except.ok i ↔
      (liveLeaderAt cfg.kvservers i ∧ ∀ j < i, ¬ liveLeaderAt cfg.kvservers j)) ∧
    (cfg.leader = Except.error Error.noLeader ↔
      ∀ j, ¬ liveLeaderAt cfg.kvservers j) ∧
    ((∀ s ∈ cfg.kvservers, s = none) → cfg.leader = Except.error Error.noLeader) := by
  refine ⟨?_, ?_, ?_⟩
  · rw [Config.leader, leaderScan_ok_iff]
    constructor
    · rintro ⟨d, rfl, hd, hmin⟩
      simpa using ⟨hd, hmin⟩
    · rintro ⟨hd, hmin⟩
      exact ⟨i, by omega, hd, hmin⟩
  · rw [Config.leader, leaderScan_error_iff]
  · intro hall
    rw [Config.leader, leaderScan_error_iff]
    rintro j ⟨inst, hj, _⟩
    rcases Nat.lt_or_ge j cfg.kvservers.length with hlt | hge
    · have : cfg.kvservers.getD j none = cfg.kvservers[j] := by
        simp [List.getD_eq_getElem?_getD, List.getElem?_eq_getElem hlt]
      rw [this] at hj
      have := hall _ (List.getElem_mem hlt)
      rw [this] at hj
      cases hj
    · rw [List.getD_eq_getElem?_getD, List.getElem?_eq_none hge] at hj
      cases hj

/-- Witness: `leader()` on a freshly initialized (no slots started) 2-peer
state returns the `NoLeader` error. -/
theorem leader_first_live_leader_or_noLeader_witness :
    (Config.init 2 0 0).leader = Except.error Error.noLeader :=
  (leader_first_live_leader_or_noLeader (Config.init 2 0 0) 0).2.2 (by decide)

/-! ## The adversarial bipartition (`make_partition`) -/

/-- A 5-peer harness state whose slot 0 reports leadership. -/
def leaderCfg5 : Config :=
  { Config.init 5 0 0 with
      kvservers :=
        [some { pid := 0, isLeader := true }, some { pid := 1, isLeader := false },
         some { pid := 2, isLeader := false }, some { pid := 3, isLeader := false },
         some { pid := 4, isLeader := false }] }

/-- C1, failing evaluation: with `n = 5` and known leader index `0`,
`make_partition()` returns `([1, 2], [3, 4, 0])`.  The two groups do cover
`0..4` exactly once and the leader is appended last to its group — but that
group holds 3 of the 5 indices: the leader lands in the strictly *larger*
group, contradicting the minority placement stated by the spec and by the
source's own comment ("put current leader in minority").  The loop guard
`p1.len() + 1 < n/2 + 1` stops `p1` at `n/2 = 2` members instead of
`n/2 + 1 = 3`. -/
theorem makePartition_puts_leader_in_strict_majority :
    leaderCfg5.leader = Except.ok 0 ∧
    leaderCfg5.makePartition = ([1, 2], [3, 4, 0]) ∧
    makePartitionFrom 5 0 = ([1, 2], [3, 4, 0]) ∧
    (0 : Nat) ∈ [3, 4, 0] ∧
    ¬ (([3, 4, 0] : List Nat).length ≤ ([1, 2] : List Nat).length) :=
  ⟨rfl, rfl, rfl, by decide, by decide⟩

/-! ## Wall-clock budget -/

/-- C6: `end()` and teardown raise the `TestBudgetExceeded` panic exactly
when more than 120 seconds of wall clock have elapsed since the harness was
constructed.  `begin()` resets only `t0` and the baselines, so the budget
stays measured from construction; the teardown check runs for every state,
whether or not `end()` was ever called. -/
theorem budget_panic_iff_120s_from_construction (cfg : Config) (tb now : Nat) :
    (((cfg.beginTest tb).endTest now).panicked = true ↔ 120000 < now - cfg.start) ∧
    ((cfg.endTest now).panicked = true ↔ 120000 < now - cfg.start) ∧
    (cfg.dropTeardown now = true ↔ 120000 < now - cfg.start) ∧
    ((cfg.beginTest tb).dropTeardown now = true ↔ 120000 < now - cfg.start) := by
  refine ⟨?_, ?_, ?_, ?_⟩ <;>
    simp [Config.endTest, Config.beginTest, Config.dropTeardown,
      Config.checkTimeoutPanics]

/-- Witness: the budget equivalence instantiated at a concrete state and
wall-clock reading. -/
theorem budget_panic_iff_120s_from_construction_witness :
    (((Config.init 1 0 0).beginTest 5).endTest 130000).panicked = true ↔
      120000 < 130000 - (Config.init 1 0 0).start :=
  (budget_panic_iff_120s_from_construction (Config.init 1 0 0) 5 130000).1

/-! ## Clerk bookkeeping -/

/-- C10: after `delete_client`, `connect_client` and `disconnect_client` with
that clerk panic (the map index on a missing key, `none` here) rather than
being tolerated no-ops; likewise for a clerk that was never registered. -/
theorem clerk_ops_after_delete_are_errors (cfg : Config) (ck ck2 : EndName)
    (to_ from_ : List Nat) :
    ((cfg.deleteClient ck).connectClient ck to_ = none) ∧
    ((cfg.deleteClient ck).disconnectClient ck from_ = none) ∧
    (clerkLookup cfg.clerks ck2 = none →
      cfg.connectClient ck2 to_ = none ∧ cfg.disconnectClient ck2 from_ = none) := by
  have hnone : clerkLookup (cfg.deleteClient ck).clerks ck = none := by
    unfold clerkLookup Config.deleteClient
    have : List.find? (fun p => p.1 == ck)
        (cfg.clerks.filter fun p => p.1 != ck) = none := by
      rw [List.find?_eq_none]
      intro x hx
      have := (List.mem_filter.1 hx).2
      simpa using this
    rw [this]
  refine ⟨?_, ?_, fun h => ⟨?_, ?_⟩⟩
  · simp [Config.connectClient, hnone]
  · simp [Config.disconnectClient, hnone]
  · simp [Config.connectClient, h]
  · simp [Config.disconnectClient, h]

/-- Witness: delete-then-connect and never-registered lookups on a concrete
1-peer harness. -/
theorem clerk_ops_after_delete_are_errors_witness :
    (((sampleCfg 1).deleteClient (EndName.id 5)).connectClient (EndName.id 5) [0] =
      none) ∧
    (((sampleCfg 1).deleteClient (EndName.id 5)).disconnectClient (EndName.id 5) [0] =
      none) ∧
    ((sampleCfg 1).connectClient (EndName.id 7) [0] = none ∧
      (sampleCfg 1).disconnectClient (EndName.id 7) [0] = none) := by
  have h := clerk_ops_after_delete_are_errors (sampleCfg 1) (EndName.id 5) (EndName.id 7)
    [0] [0]
  exact ⟨h.1, h.2.1, h.2.2 (by decide)⟩

/-! ## The `endnames` matrix shape -/

theorem uniqName_inj : Function.Injective uniqName := by
  intro a b h
  simpa [uniqName] using h

theorem connect_endnames (cfg : Config) (i : Nat) (to_ : List Nat) :
    (cfg.connect i to_).endnames = cfg.endnames := rfl

theorem disconnect_endnames (cfg : Config) (i : Nat) (from_ : List Nat) :
    (cfg.disconnect i from_).endnames = cfg.endnames := rfl

theorem partition_endnames (cfg : Config) (p1 p2 : List Nat) :
    (cfg.partition p1 p2).endnames = cfg.endnames := rfl

theorem connectAll_endnames (cfg : Config) :
    cfg.connectAll.endnames = cfg.endnames := by
  unfold Config.connectAll
  generalize List.range cfg.n = l
  induction l generalizing cfg with
  | nil => rfl
  | cons a l ih =>
    rw [List.foldl_cons]
    exact ih _

theorem startServer_dims (cfg : Config) (i : Nat) (hi : i < cfg.n)
    (h1 : cfg.endnames.length = cfg.n) (h2 : ∀ r ∈ cfg.endnames, r.length = cfg.n) :
    (cfg.startServer i).endnames.length = cfg.n ∧
    ∀ r ∈ (cfg.startServer i).endnames, r.length = cfg.n := by
  constructor
  · rw [startServer_endnames, List.length_set]
    exact h1
  · intro r hr
    rw [startServer_endnames] at hr
    rcases List.mem_or_eq_of_mem_set hr with h | h
    · exact h2 r h
    · subst h
      simp

theorem new_loop_dims (n : Nat) :
    ∀ (l : List Nat) (cfg : Config), cfg.n = n →
      cfg.endnames.length = n → (∀ r ∈ cfg.endnames, r.length = n) →
      (∀ i ∈ l, i < n) →
      (l.foldl (fun c i => c.startServer i) cfg).n = n ∧
      (l.foldl (fun c i => c.startServer i) cfg).endnames.length = n ∧
      ∀ r ∈ (l.foldl (fun c i => c.startServer i) cfg).endnames, r.length = n := by
  intro l
  induction l with
  | nil => exact fun cfg h1 h2 h3 _ => ⟨h1, h2, h3⟩
  | cons a l ih =>
    intro cfg h1 h2 h3 hl
    rw [List.foldl_cons]
    have ha : a < cfg.n := h1 ▸ hl a (List.mem_cons_self ..)
    have hd := startServer_dims cfg a ha (h1 ▸ h2) (h1 ▸ h3)
    exact ih (cfg.startServer a) h1 (h1 ▸ hd.1) (h1 ▸ hd.2)
      (fun i hi => hl i (List.mem_cons_of_mem _ hi))

theorem new_dims (n : Nat) (u : Bool) (m now : Nat) :
    (Config.new n u m now).endnames.length = n ∧
    ∀ r ∈ (Config.new n u m now).endnames, r.length = n := by
  have hinit : (Config.init n m now).n = n ∧
      (Config.init n m now).endnames.length = n ∧
      ∀ r ∈ (Config.init n m now).endnames, r.length = n := by
    refine ⟨rfl, by simp [Config.init], ?_⟩
    intro r hr
    have := List.eq_of_mem_replicate hr
    subst this
    simp
  have hloop := new_loop_dims n (List.range n) (Config.init n m now) hinit.1
    hinit.2.1 hinit.2.2 (fun i hi => List.mem_range.1 hi)
  have he : (Config.new n u m now).endnames =
      ((List.range n).foldl (fun c i => c.startServer i)
        (Config.init n m now)).endnames := by
    show (((List.range n).foldl (fun c i => c.startServer i)
        (Config.init n m now)).connectAll).endnames = _
    rw [connectAll_endnames]
  rw [he]
  exact ⟨hloop.2.1, hloop.2.2⟩

/-- C9: the `endnames` matrix is `n×n` at construction and stays `n×n` under
every operation: `start_server(i)` replaces row `i` with `n` freshly
generated, pairwise-distinct names (the next `n` values of the uniqstring
counter) and leaves other rows alone, while `shutdown_server`, `connect`,
`disconnect` and `partition` do not touch the matrix at all — no operation
ever shrinks or empties a row. -/
theorem endnames_matrix_always_n_by_n (n : Nat) (u : Bool) (m now : Nat)
    (cfg : Config) (i : Nat) (to_ from_ p1 p2 : List Nat)
    (hi : i < cfg.n)
    (h1 : cfg.endnames.length = cfg.n)
    (h2 : ∀ r ∈ cfg.endnames, r.length = cfg.n) :
    ((Config.new n u m now).endnames.length = n ∧
      ∀ r ∈ (Config.new n u m now).endnames, r.length = n) ∧
    ((cfg.startServer i).n = cfg.n ∧
      (cfg.startServer i).endnames.length = cfg.n ∧
      (∀ r ∈ (cfg.startServer i).endnames, r.length = cfg.n) ∧
      (cfg.startServer i).endnames.getD i [] =
        (List.range cfg.n).map (fun k => uniqName (cfg.nextId + k)) ∧
      ((cfg.startServer i).endnames.getD i []).length = cfg.n ∧
      ((cfg.startServer i).endnames.getD i []).Nodup ∧
      (∀ k, k ≠ i → (cfg.startServer i).endnames.getD k [] = cfg.endnames.getD k [])) ∧
    ((cfg.shutdownServer i).endnames = cfg.endnames ∧
      (cfg.connect i to_).endnames = cfg.endnames ∧
      (cfg.disconnect i from_).endnames = cfg.endnames ∧
      (cfg.partition p1 p2).endnames = cfg.endnames) := by
  have hrowi : (cfg.startServer i).endnames.getD i [] =
      (List.range cfg.n).map (fun k => uniqName (cfg.nextId + k)) := by
    rw [startServer_endnames, List.getD_eq_getElem?_getD,
      List.getElem?_set_eq_of_lt _ (h1 ▸ hi), Option.getD_some]
  have hd := startServer_dims cfg i hi h1 h2
  refine ⟨new_dims n u m now, ⟨rfl, hd.1, hd.2, hrowi, ?_, ?_, ?_⟩,
    rfl, rfl, rfl, rfl⟩
  · rw [hrowi]
    simp
  · rw [hrowi]
    refine (List.nodup_range cfg.n).map ?_
    intro a b h
    have := uniqName_inj h
    omega
  · intro k hk
    rw [startServer_endnames, List.getD_eq_getElem?_getD,
      List.getElem?_set_ne (fun h => hk h.symm), ← List.getD_eq_getElem?_getD]

/-- Witness: the matrix shape facts on a concrete 3-peer harness. -/
theorem endnames_matrix_always_n_by_n_witness :
    ((Config.new 2 false 0 0).endnames.length = 2 ∧
      ∀ r ∈ (Config.new 2 false 0 0).endnames, r.length = 2) ∧
    (((sampleCfg 3).startServer 0).endnames.getD 0 [] =
      (List.range (sampleCfg 3).n).map
        (fun k => uniqName ((sampleCfg 3).nextId + k))) ∧
    (((sampleCfg 3).startServer 0).endnames.getD 0 []).Nodup ∧
    ((sampleCfg 3).shutdownServer 0).endnames = (sampleCfg 3).endnames := by
  have h := endnames_matrix_always_n_by_n 2 false 0 0 (sampleCfg 3) 0 [] [] [] []
    (by decide) (by decide) (by decide)
  exact ⟨h.1, h.2.1.2.2.2.1, h.2.1.2.2.2.2.2.1, h.2.2.1⟩

end KvraftConfig
